import Mathlib

/-!
Shallow embedding of the cart state manager in `src/contexts/CartContext.tsx`.

Modelling conventions:
* JS `Record<string, string>` variant maps become association lists (`Variants`);
  optional TS fields become `Option`.
* TS `number` quantities become `Int` (the code never does non-integer arithmetic
  on them); JS `q || 1` on a number is `jsOrOne` (0 is falsy), `s || t` on an
  optional string is `jsOrStr` (both `undefined` and `""` are falsy).
* An optional `sizes`/`categoryIds` array that is `undefined` is modelled as `[]`:
  the code only ever asks `sizes && sizes.length > 0` and
  `categoryIds?.some(...)`, which agree with the `[]` reading.
* `localStorage` under the fixed key `'cart'` is the `storage` field of
  `CartState`; the `useEffect` at lines 49-51 re-saves the item list after every
  committed `setItems` (each updater returns a fresh array, so the effect always
  fires), which is folded into each state-level operation.
* In `updateItemSize`, the source compares `existingItem !== item` by reference.
  List positions always hold pairwise-distinct object references in the source
  (every insertion allocates a fresh literal), so reference inequality is
  modelled as inequality of the positions involved.
-/

namespace Medfit

/-- Variant mapping (`Record<string, string>` in the source), as an association list. -/
abbrev Variants := List (String × String)

/-- The slice of the external `Item` record that the cart logic reads:
`id`, optional `sizes`, optional `categoryIds` (pricing fields are only passed
through to the external pricing resolver and are not needed by any claim). -/
structure Item where
  id : String
  sizes : List String
  categoryIds : List String
  deriving DecidableEq, Repr

/-- `product.sizes && product.sizes.length > 0` from the source. -/
def Item.hasSizes (p : Item) : Bool := !p.sizes.isEmpty

/-- `CartItem` from the source (lines 7-12). -/
structure CartItem where
  product : Item
  quantity : Int
  selectedVariants : Option Variants
  selectedSize : Option String
  deriving DecidableEq, Repr

/-- JS `s || t` for an optional string `s`: `undefined` and `""` are falsy. -/
def jsOrStr : Option String → Option String → Option String
  | some s, b => if s == "" then b else some s
  | none, b => b

/-- JS `q || 1` for a number `q`: `0` is falsy. -/
def jsOrOne (q : Int) : Int := if q == 0 then 1 else q

/-- The match predicate of `addItem`'s `findIndex` (lines 56-65), also used by
`replaceItem`'s existing-item check (lines 156-164): same product id, and the
same selected size when the (argument) product has sizes. -/
def matchesProduct (product : Item) (selectedSize : Option String) (item : CartItem) : Bool :=
  item.product.id == product.id &&
    (if product.hasSizes then item.selectedSize == selectedSize else true)

/-- Replace the first element satisfying `p` by its image under `f`
(JS `findIndex` followed by an in-place update of that index). -/
def updateFirst (p : CartItem → Bool) (f : CartItem → CartItem) : List CartItem → List CartItem
  | [] => []
  | x :: xs => if p x then f x :: xs else x :: updateFirst p f xs

/-- `addItem` (lines 53-77): merge the quantity into the first item with the
same identity, else append a new line item. -/
def addItem (product : Item) (quantity : Int) (variants : Option Variants)
    (selectedSize : Option String) (prevItems : List CartItem) : List CartItem :=
  if prevItems.any (matchesProduct product selectedSize) then
    updateFirst (matchesProduct product selectedSize)
      (fun it => { it with quantity := it.quantity + quantity }) prevItems
  else
    prevItems ++ [{ product := product, quantity := quantity,
                    selectedVariants := variants, selectedSize := selectedSize }]

/-- `removeItem` (lines 79-81): drop every line item with the given product id. -/
def removeItem (productId : String) (prevItems : List CartItem) : List CartItem :=
  prevItems.filter (fun item => item.product.id != productId)

/-- `updateQuantity` (lines 83-94). -/
def updateQuantity (productId : String) (quantity : Int) (prevItems : List CartItem) :
    List CartItem :=
  if quantity ≤ 0 then removeItem productId prevItems
  else prevItems.map (fun item =>
    if item.product.id == productId then { item with quantity := quantity } else item)

/-- First index and element satisfying `p` (JS `find` plus the position of the
found reference, used to model reference comparison). -/
def findIdxAndElem (p : CartItem → Bool) : List CartItem → Option (Nat × CartItem)
  | [] => none
  | x :: xs => if p x then some (0, x) else (findIdxAndElem p xs).map fun r => (r.1 + 1, r.2)

/-- The pair comparison of `updateItemSize`'s dedup filter (lines 118-124):
same product id and same selected size. -/
def samePair (a b : CartItem) : Bool :=
  a.product.id == b.product.id && a.selectedSize == b.selectedSize

/-- The dedup filter of `updateItemSize` (lines 118-124): keep only the first
occurrence of each (product id, selected size) pair. -/
def dedupPairs : List CartItem → List CartItem
  | [] => []
  | x :: xs => x :: dedupPairs (xs.filter fun y => !samePair y x)
  termination_by l => l.length
  decreasing_by
    simp only [List.length_cons]
    exact Nat.lt_succ_of_le (List.length_filter_le _ _)

/-- The per-element transform of `updateItemSize`'s `map` (lines 98-117).
`i` is the position of `item` in `prevItems`; the source's
`existingItem !== item` reference check is the position check `r.1 ≠ i`. -/
def sizeMapFun (productId : String) (selectedSize : String) (prevItems : List CartItem)
    (i : Nat) (item : CartItem) : CartItem :=
  if item.product.id == productId then
    match findIdxAndElem
        (fun it => it.product.id == productId && it.selectedSize == some selectedSize)
        prevItems with
    | some r =>
      if r.1 ≠ i then { r.2 with quantity := r.2.quantity + item.quantity }
      else { item with selectedSize := some selectedSize }
    | none => { item with selectedSize := some selectedSize }
  else item

/-- Map with the position of each element, starting at `n`. -/
def mapIdxFrom (f : Nat → CartItem → CartItem) : Nat → List CartItem → List CartItem
  | _, [] => []
  | n, x :: xs => f n x :: mapIdxFrom f (n + 1) xs

/-- `updateItemSize` (lines 96-126): transform every item of the product, then
deduplicate by (product id, selected size) keeping first occurrences. -/
def updateItemSize (productId : String) (selectedSize : String)
    (prevItems : List CartItem) : List CartItem :=
  dedupPairs (mapIdxFrom (sizeMapFun productId selectedSize prevItems) 0 prevItems)

/-- `oldItem?.quantity || 1` (line 142). -/
def oldQuantityOf (prevItems : List CartItem) (oldProductId : String) : Int :=
  match prevItems.find? (fun it => it.product.id == oldProductId) with
  | some it => jsOrOne it.quantity
  | none => 1

/-- `sameCategoryReplacement` (lines 145-150): some cart item already has the
new product's id, or the old item's category ids intersect the new product's. -/
def sameCategoryReplacement (prevItems : List CartItem) (oldProductId : String)
    (newProduct : Item) : Bool :=
  let oldItem := prevItems.find? (fun it => it.product.id == oldProductId)
  prevItems.any fun item =>
    item.product.id == newProduct.id ||
      (match oldItem with
       | some old => old.product.categoryIds.any fun catId =>
           newProduct.categoryIds.contains catId
       | none => false)

/-- `replaceItem` (lines 138-192). -/
def replaceItem (oldProductId : String) (newProduct : Item) (quantity : Int)
    (variants : Option Variants) (selectedSize : Option String)
    (prevItems : List CartItem) : List CartItem :=
  let oldQuantity := oldQuantityOf prevItems oldProductId
  let sameCat := sameCategoryReplacement prevItems oldProductId newProduct
  let filteredItems := prevItems.filter fun item => item.product.id != oldProductId
  if filteredItems.any (matchesProduct newProduct selectedSize) then
    updateFirst (matchesProduct newProduct selectedSize)
      (fun it =>
        { it with
          quantity := if sameCat then max it.quantity oldQuantity
                      else it.quantity + jsOrOne quantity,
          selectedVariants := variants.or it.selectedVariants,
          selectedSize := jsOrStr selectedSize it.selectedSize })
      filteredItems
  else
    filteredItems ++ [{ product := newProduct,
                        quantity := if sameCat then oldQuantity else jsOrOne quantity,
                        selectedVariants := variants, selectedSize := selectedSize }]

/-- `setDirectPurchaseItem`'s item construction (lines 225-234): a truthy
`variantId` is stored as a one-entry variant map under the key `"variant"` and
discards the supplied size; otherwise the size is kept and no variants stored. -/
def mkDirectPurchaseItem (product : Item) (quantity : Int) (variantId : Option String)
    (selectedSize : Option String) : CartItem :=
  match variantId with
  | some v =>
    if v == "" then
      { product := product, quantity := quantity, selectedVariants := none,
        selectedSize := selectedSize }
    else
      { product := product, quantity := quantity,
        selectedVariants := some [("variant", v)], selectedSize := none }
  | none =>
    { product := product, quantity := quantity, selectedVariants := none,
      selectedSize := selectedSize }

/-- State of one mounted `CartProvider`: the item list, the direct-purchase
override, and the content of the `'cart'` key of the persistence adapter
(`none` = no record stored). -/
structure CartState where
  items : List CartItem
  direct : Option CartItem
  storage : Option (List CartItem)
  deriving DecidableEq, Repr

/-- State right after mount from an empty store: the mount run of the save
effect (lines 49-51) has already persisted the initial empty list. -/
def initialState : CartState :=
  { items := [], direct := none, storage := some [] }

/-- Commit a new item list: the save effect (lines 49-51) fires after every
committed `setItems` (each updater allocates a fresh array) and persists it. -/
def persistItems (newItems : List CartItem) (st : CartState) : CartState :=
  { st with items := newItems, storage := some newItems }

/-- Exposed `addItem` (line 220): a no-op closure while a direct-purchase item
is set, else `addItem` followed by the save effect. -/
def cartAddItem (product : Item) (quantity : Int) (variants : Option Variants)
    (selectedSize : Option String) (st : CartState) : CartState :=
  match st.direct with
  | some _ => st
  | none => persistItems (addItem product quantity variants selectedSize st.items) st

/-- Exposed `removeItem` (line 221). -/
def cartRemoveItem (productId : String) (st : CartState) : CartState :=
  match st.direct with
  | some _ => st
  | none => persistItems (removeItem productId st.items) st

/-- Exposed `updateQuantity` (line 222). -/
def cartUpdateQuantity (productId : String) (quantity : Int) (st : CartState) : CartState :=
  match st.direct with
  | some _ => st
  | none => persistItems (updateQuantity productId quantity st.items) st

/-- Exposed `updateItemSize` (line 223). -/
def cartUpdateItemSize (productId : String) (selectedSize : String) (st : CartState) :
    CartState :=
  match st.direct with
  | some _ => st
  | none => persistItems (updateItemSize productId selectedSize st.items) st

/-- Exposed `replaceItem` (line 235). -/
def cartReplaceItem (oldProductId : String) (newProduct : Item) (quantity : Int)
    (variants : Option Variants) (selectedSize : Option String) (st : CartState) : CartState :=
  match st.direct with
  | some _ => st
  | none =>
    persistItems (replaceItem oldProductId newProduct quantity variants selectedSize st.items) st

/-- Exposed `clearCart` (lines 128-132), exposed in every mode (line 224):
`setItems([])`, `setDirectPurchaseItem(null)`, `localStorage.removeItem('cart')`.
The committed empty list then re-triggers the save effect (lines 49-51), so the
store ends up holding the serialized empty list, not no record. -/
def cartClearCart (_st : CartState) : CartState :=
  { items := [], direct := none, storage := some [] }

/-- Exposed `clearDirectPurchase` (lines 134-136). -/
def cartClearDirectPurchase (st : CartState) : CartState :=
  { st with direct := none }

/-- Exposed `setDirectPurchaseItem` (lines 225-234): overwrites the direct
item, touching neither the item list nor the store. -/
def cartSetDirectPurchaseItem (product : Item) (quantity : Int) (variantId : Option String)
    (selectedSize : Option String) (st : CartState) : CartState :=
  { st with direct := some (mkDirectPurchaseItem product quantity variantId selectedSize) }

/-- `itemCount` over a list (line 194). -/
def itemCount (items : List CartItem) : Int :=
  items.foldl (fun sum item => sum + item.quantity) 0

/-- The `items` value handed to consumers (line 210). -/
def exposedItems (st : CartState) : List CartItem :=
  match st.direct with
  | some d => [d]
  | none => st.items

/-- The `itemCount` value handed to consumers (line 211). -/
def exposedItemCount (st : CartState) : Int :=
  match st.direct with
  | some d => d.quantity
  | none => itemCount st.items

/-- One call to an exposed cart-sequence operation. -/
inductive CartOp where
  | add (product : Item) (quantity : Int) (variants : Option Variants)
        (selectedSize : Option String)
  | remove (productId : String)
  | setQty (productId : String) (quantity : Int)
  | setSize (productId : String) (selectedSize : String)
  | replace (oldProductId : String) (newProduct : Item) (quantity : Int)
            (variants : Option Variants) (selectedSize : Option String)
  | clear

/-- Run one exposed operation on the provider state. -/
def applyOp (st : CartState) : CartOp → CartState
  | .add p q v s => cartAddItem p q v s st
  | .remove pid => cartRemoveItem pid st
  | .setQty pid q => cartUpdateQuantity pid q st
  | .setSize pid s => cartUpdateItemSize pid s st
  | .replace pid p q v s => cartReplaceItem pid p q v s st
  | .clear => cartClearCart st

/-- Run a sequence of exposed operations from the empty initial state. -/
def runOps (ops : List CartOp) : CartState :=
  ops.foldl applyOp initialState

/-- Identity key of the data model: (product id, selected size) when the
product has sizes, else the product id alone. -/
inductive IdentityKey where
  | byProduct (pid : String)
  | byProductAndSize (pid : String) (sz : Option String)
  deriving DecidableEq, Repr

/-- Identity key of a line item. -/
def keyOf (item : CartItem) : IdentityKey :=
  if item.product.hasSizes then .byProductAndSize item.product.id item.selectedSize
  else .byProduct item.product.id

/-- Uniqueness invariant: no two line items share an identity key. -/
def UniqueKeys (items : List CartItem) : Prop :=
  (items.map keyOf).Nodup

/-- Stability of the external product catalog: whether a product id is
size-bearing is a function of the id. -/
def SizedConsistent (sz : String → Bool) (items : List CartItem) : Prop :=
  ∀ it ∈ items, it.product.hasSizes = sz it.product.id

/-- An operation's product arguments agree with the catalog's sizedness. -/
def OpConsistent (sz : String → Bool) : CartOp → Prop
  | .add p _ _ _ => p.hasSizes = sz p.id
  | .replace _ p _ _ _ => p.hasSizes = sz p.id
  | _ => True

/-- The "old item's quantity, default 1 when absent" of the specification's
step 1 of `replaceItem` (spec-side reading of line 142, without the `|| 1`
zero-coercion that the code's falsiness check adds). -/
def oldQuantityPlain (prevItems : List CartItem) (oldProductId : String) : Int :=
  match prevItems.find? (fun it => it.product.id == oldProductId) with
  | some it => it.quantity
  | none => 1

/-- Combined invariant carried through operation sequences. -/
def CartInv (sz : String → Bool) (items : List CartItem) : Prop :=
  UniqueKeys items ∧ SizedConsistent sz items

/-- The (product id, selected size) combination of a line item: the
specification's collision and dedup key for `updateItemSize`. -/
def identityPair (item : CartItem) : String × Option String :=
  (item.product.id, item.selectedSize)

/-- Specification-side rendering of `updateItemSize`'s per-item rule, written
from the claim's words and to be compared with the source translation
`sizeMapFun`: a line item of the targeted product for which a distinct line
item with identity (productId, selectedSize) already exists in the pre-update
sequence is replaced by that existing item's data with quantity =
existing.quantity + current.quantity; otherwise its selected size is
overwritten. The existing item is the first holder of that identity in the
pre-update sequence, and it is distinct from the current item unless the
current item is itself that first holder — i.e. the current item carries the
identity and no line item of `pre`, the part of the sequence strictly before
it, does. -/
def specTransformOne (pre : List CartItem) (productId selectedSize : String)
    (prevItems : List CartItem) (item : CartItem) : CartItem :=
  if item.product.id == productId then
    match prevItems.find? (fun e => identityPair e == (productId, some selectedSize)) with
    | some existing =>
      if identityPair item == (productId, some selectedSize) &&
          pre.all (fun y => !(identityPair y == (productId, some selectedSize))) then
        { item with selectedSize := some selectedSize }
      else { existing with quantity := existing.quantity + item.quantity }
    | none => { item with selectedSize := some selectedSize }
  else item

/-- Specification-side pass applying `specTransformOne` to every line item,
walking the sequence while carrying the prefix of items already passed. -/
def specTransformAux (pre : List CartItem) (productId selectedSize : String)
    (prevItems : List CartItem) : List CartItem → List CartItem
  | [] => []
  | x :: xs =>
    specTransformOne pre productId selectedSize prevItems x ::
      specTransformAux (pre ++ [x]) productId selectedSize prevItems xs

/-- Specification-side rendering of the claim's first-occurrence rule, to be
compared with the source translation `dedupPairs`: a line item survives the
deduplication by (product id, selected size) exactly when no line item of
`seen`, the part of the sequence before it, carries the same combination;
later duplicates are dropped. -/
def specFirstOccurrencesAux (seen : List CartItem) : List CartItem → List CartItem
  | [] => []
  | x :: xs =>
    if seen.all (fun y => !(identityPair y == identityPair x)) then
      x :: specFirstOccurrencesAux (seen ++ [x]) xs
    else specFirstOccurrencesAux (seen ++ [x]) xs

/-- Specification-side deduplication, started with an empty prefix. -/
def specFirstOccurrences (l : List CartItem) : List CartItem :=
  specFirstOccurrencesAux [] l

/-- Specification-side `updateItemSize`, assembled from the claim's own
wording: transform every line item against the pre-update sequence, then keep
only the first occurrence of each (product id, selected size) combination. -/
def updateItemSizeSpec (productId selectedSize : String)
    (prevItems : List CartItem) : List CartItem :=
  specFirstOccurrences (specTransformAux [] productId selectedSize prevItems prevItems)

/-- Sample size-bearing product. -/
def sampleSized : Item := ⟨"p", ["S", "M", "L"], ["c1"]⟩

/-- Sample size-less product. -/
def sampleNoSize : Item := ⟨"n", [], ["c1"]⟩

/-- Sample size-less product in another category. -/
def sampleOther : Item := ⟨"b", [], ["c2"]⟩

/-- Sample size-less product sharing a category with `sampleNoSize`. -/
def sampleSameCat : Item := ⟨"m", [], ["c1"]⟩

/-- C1: `clearCart` evaluated at a state whose cart holds one item. The
explicit `localStorage.removeItem('cart')` (line 131) is immediately undone by
the save effect (lines 49-51) reacting to the committed empty list, so the
persisted record ends up as the serialized empty sequence (`some []`), not as
an absent record (`none`): a subsequent load finds a prior (empty) state. -/
theorem clearCart_leaves_empty_record :
    cartClearCart { items := [⟨sampleNoSize, 2, none, none⟩], direct := none,
                    storage := some [⟨sampleNoSize, 2, none, none⟩] } =
      { items := [], direct := none, storage := some [] } ∧
    (cartClearCart { items := [⟨sampleNoSize, 2, none, none⟩], direct := none,
                     storage := some [⟨sampleNoSize, 2, none, none⟩] }).storage ≠ none :=
  ⟨rfl, by decide⟩

/-- C9: `addItem` performs no sign validation: adding the size-less sample
product with quantity `-1` to the fresh empty cart leaves a line item with
non-positive quantity in the sequence, and the derived item count is `-1`. -/
theorem addItem_allows_nonpositive_quantity :
    (cartAddItem sampleNoSize (-1) none none initialState).items =
      [⟨sampleNoSize, -1, none, none⟩] ∧
    (∃ it ∈ (cartAddItem sampleNoSize (-1) none none initialState).items,
      it.quantity ≤ 0) ∧
    exposedItemCount (cartAddItem sampleNoSize (-1) none none initialState) = -1 := by
  refine ⟨rfl, ⟨⟨sampleNoSize, -1, none, none⟩, ?_, by decide⟩, rfl⟩
  decide

/-- C7: `updateQuantity` removes every line item of the product (all sizes)
when the quantity is non-positive, and otherwise overwrites (not adds to) the
quantity of every line item whose product id matches, leaving other items and
fields unchanged. -/
theorem updateQuantity_removes_or_overwrites (productId : String) (quantity : Int)
    (prevItems : List CartItem) :
    (quantity ≤ 0 →
      updateQuantity productId quantity prevItems =
        prevItems.filter (fun it => it.product.id != productId)) ∧
    (0 < quantity →
      updateQuantity productId quantity prevItems =
        prevItems.map (fun it =>
          if it.product.id == productId then { it with quantity := quantity } else it)) := by
  constructor
  · intro h
    rw [updateQuantity, if_pos h, removeItem]
  · intro h
    rw [updateQuantity, if_neg (not_le.mpr h)]

/-- Concrete run of `updateQuantity_removes_or_overwrites`: quantity `0`
removes both sized line items of product `"p"`; quantity `7` overwrites the
quantity of the `"p"` item and leaves the `"n"` item alone. -/
theorem updateQuantity_removes_or_overwrites_spot :
    updateQuantity "p" 0
        [⟨sampleSized, 2, none, some "M"⟩, ⟨sampleSized, 1, none, some "L"⟩,
         ⟨sampleNoSize, 1, none, none⟩] =
      [⟨sampleNoSize, 1, none, none⟩] ∧
    updateQuantity "p" 7
        [⟨sampleSized, 2, none, some "M"⟩, ⟨sampleNoSize, 1, none, none⟩] =
      [⟨sampleSized, 7, none, some "M"⟩, ⟨sampleNoSize, 1, none, none⟩] :=
  ⟨((updateQuantity_removes_or_overwrites "p" 0 _).1 (by decide)).trans (by decide),
   ((updateQuantity_removes_or_overwrites "p" 7 _).2 (by decide)).trans (by decide)⟩

/-- C3: while a direct-purchase item is set, the exposed `addItem`,
`removeItem`, `updateQuantity`, `updateItemSize` and `replaceItem` are no-op
closures (the whole state, cart sequence included, is unchanged), the exposed
item list is the one-element list holding the direct item, and the exposed item
count is the direct item's quantity, whatever the underlying cart holds; only
`clearCart`, `clearDirectPurchase` and `setDirectPurchaseItem` still act. -/
theorem directPurchase_overrides (st : CartState) (d : CartItem)
    (h : st.direct = some d) (p N : Item) (q q2 : Int) (v : Option Variants)
    (s : Option String) (pid oldPid szStr : String) (vid : Option String) :
    cartAddItem p q v s st = st ∧
    cartRemoveItem pid st = st ∧
    cartUpdateQuantity pid q st = st ∧
    cartUpdateItemSize pid szStr st = st ∧
    cartReplaceItem oldPid N q v s st = st ∧
    exposedItems st = [d] ∧
    exposedItemCount st = d.quantity ∧
    cartClearCart st = { items := [], direct := none, storage := some [] } ∧
    (cartClearDirectPurchase st).direct = none ∧
    (cartSetDirectPurchaseItem N q2 vid s st).direct =
      some (mkDirectPurchaseItem N q2 vid s) := by
  refine ⟨?_, ?_, ?_, ?_, ?_, ?_, ?_, rfl, rfl, rfl⟩ <;>
    simp [cartAddItem, cartRemoveItem, cartUpdateQuantity, cartUpdateItemSize,
          cartReplaceItem, exposedItems, exposedItemCount, h]

/-- Concrete run of `directPurchase_overrides`: with direct item `⟨"b", 5⟩` set
over a cart holding a `"p"` line item, `addItem` of `"n"` leaves the state
unchanged and the exposed count is `5`. -/
theorem directPurchase_overrides_spot :
    cartAddItem sampleNoSize 1 none none
        { items := [⟨sampleSized, 2, none, some "M"⟩],
          direct := some ⟨sampleOther, 5, none, none⟩,
          storage := some [⟨sampleSized, 2, none, some "M"⟩] } =
      { items := [⟨sampleSized, 2, none, some "M"⟩],
        direct := some ⟨sampleOther, 5, none, none⟩,
        storage := some [⟨sampleSized, 2, none, some "M"⟩] } ∧
    exposedItemCount
        { items := [⟨sampleSized, 2, none, some "M"⟩],
          direct := some ⟨sampleOther, 5, none, none⟩,
          storage := some [⟨sampleSized, 2, none, some "M"⟩] } = 5 :=
  ⟨(directPurchase_overrides _ ⟨sampleOther, 5, none, none⟩ rfl sampleNoSize sampleNoSize
      1 1 none none "" "" "" none).1,
   (directPurchase_overrides _ ⟨sampleOther, 5, none, none⟩ rfl sampleNoSize sampleNoSize
      1 1 none none "" "" "" none).2.2.2.2.2.2.1⟩

/-- C10: `replaceItem` whose `oldProductId` matches nothing is not a no-op:
with the new product also absent from the cart (so the replacement is not
same-category) and a non-zero requested quantity, a line item for the new
product with the requested quantity is appended. -/
theorem replaceItem_absent_old_appends (absentId : String) (B : Item) (q : Int)
    (v : Option Variants) (s : Option String) (prev : List CartItem)
    (habs : ∀ it ∈ prev, it.product.id ≠ absentId)
    (hB : ∀ it ∈ prev, it.product.id ≠ B.id)
    (hq : q ≠ 0) :
    replaceItem absentId B q v s prev = prev ++ [⟨B, q, v, s⟩] := by
  have hfilter : prev.filter (fun it => it.product.id != absentId) = prev :=
    List.filter_eq_self.mpr fun it hit => by simp [habs it hit]
  have hfind : List.find? (fun it => it.product.id == absentId) prev = none :=
    List.find?_eq_none.mpr fun it hit => by simp [habs it hit]
  have hcat : sameCategoryReplacement prev absentId B = false := by
    simp only [sameCategoryReplacement, hfind]
    exact List.any_eq_false.mpr fun it hit => by simp [hB it hit]
  have hmatch : prev.any (matchesProduct B s) = false :=
    List.any_eq_false.mpr fun it hit => by simp [matchesProduct, hB it hit]
  simp only [replaceItem, hfilter, hcat, hmatch, Bool.false_eq_true, if_false,
    jsOrOne, beq_iff_eq, hq, if_neg]

/-- Concrete run of `replaceItem_absent_old_appends`: replacing the absent id
`"x"` by the not-in-cart product `"b"` with quantity `5` appends `⟨"b", 5⟩`. -/
theorem replaceItem_absent_old_appends_spot :
    replaceItem "x" sampleOther 5 none none [⟨sampleSized, 2, none, some "M"⟩] =
      [⟨sampleSized, 2, none, some "M"⟩, ⟨sampleOther, 5, none, none⟩] :=
  (replaceItem_absent_old_appends "x" sampleOther 5 none none _
      (by decide) (by decide) (by decide)).trans (by decide)

/-- A line-item beq against a pair literal is the componentwise test the
source's predicates use. -/
theorem identityPair_beq (e : CartItem) (pid : String) (s : Option String) :
    (identityPair e == (pid, s)) = (e.product.id == pid && e.selectedSize == s) := rfl

/-- `samePair` is beq of the identity pairs. -/
theorem samePair_eq_beq (a b : CartItem) :
    samePair a b = (identityPair a == identityPair b) := rfl

/-- `find?` returns the element part of `findIdxAndElem`. -/
theorem find?_eq_findIdxAndElem (p : CartItem → Bool) :
    ∀ l : List CartItem, l.find? p = (findIdxAndElem p l).map (fun r => r.2)
  | [] => rfl
  | x :: xs => by
    by_cases hx : p x = true
    · rw [List.find?_cons_of_pos xs hx, findIdxAndElem, if_pos hx]
      rfl
    · rw [List.find?_cons_of_neg xs (by simp [hx]), findIdxAndElem, if_neg hx,
        find?_eq_findIdxAndElem p xs, Option.map_map]
      rfl

/-- `findIdxAndElem` finds the element at the returned position, that element
satisfies the predicate, and everything strictly before the position fails it. -/
theorem findIdxAndElem_position {p : CartItem → Bool} {r : Nat × CartItem} :
    ∀ {l : List CartItem}, findIdxAndElem p l = some r →
      l[r.1]? = some r.2 ∧ (l.take r.1).all (fun y => !p y) = true ∧ p r.2 = true
  | [], h => by simp [findIdxAndElem] at h
  | x :: xs, h => by
    rw [findIdxAndElem] at h
    by_cases hx : p x = true
    · rw [if_pos hx] at h
      cases h
      exact ⟨by simp, rfl, hx⟩
    · rw [if_neg hx] at h
      rcases Option.map_eq_some'.mp h with ⟨r0, hr0, hr⟩
      obtain ⟨h1, h2, h3⟩ := findIdxAndElem_position hr0
      subst hr
      refine ⟨by simpa using h1, ?_, h3⟩
      rw [List.take_succ_cons, List.all_cons, h2]
      simp [hx]

/-- The source transform at the position of `x` in `pre ++ x :: xs` agrees
with the specification's per-item rule: the collision target is distinct from
`x` exactly when `x` is not itself the first identity holder. -/
theorem sizeMapFun_eq_specTransformOne (pid s : String) (pre xs : List CartItem)
    (x : CartItem) :
    sizeMapFun pid s (pre ++ x :: xs) pre.length x =
      specTransformOne pre pid s (pre ++ x :: xs) x := by
  rw [sizeMapFun, specTransformOne]
  simp only [identityPair_beq]
  by_cases hx : (x.product.id == pid) = true
  · rw [if_pos hx, if_pos hx, find?_eq_findIdxAndElem]
    cases hf : findIdxAndElem
        (fun e => e.product.id == pid && e.selectedSize == some s) (pre ++ x :: xs) with
    | none => rfl
    | some r =>
      simp only [Option.map_some']
      obtain ⟨hget, htake, hq⟩ := findIdxAndElem_position hf
      by_cases hj : r.1 = pre.length
      · rw [if_neg (fun hne => hne hj)]
        have hx2 : r.2 = x := by
          have hg2 : (pre ++ x :: xs)[pre.length]? = some x := by
            rw [List.getElem?_append_right (Nat.le_refl _)]
            simp
          rw [hj] at hget
          exact Option.some.inj (hget.symm.trans hg2)
        have hc1 : (x.product.id == pid && x.selectedSize == some s) = true := hx2 ▸ hq
        have hc2 : (pre.all fun y => !(y.product.id == pid && y.selectedSize == some s))
            = true := by
          have htk : (pre ++ x :: xs).take r.1 = pre := by
            rw [hj]
            exact List.take_left pre (x :: xs)
          rw [htk] at htake
          exact htake
        rw [if_pos (by rw [hc1, hc2]; rfl)]
      · rw [if_pos hj]
        have hcond : ¬(((x.product.id == pid && x.selectedSize == some s) &&
            pre.all fun y => !(y.product.id == pid && y.selectedSize == some s)) = true) := by
          intro hc
          obtain ⟨hcx, hcpre⟩ := Bool.and_eq_true_iff.mp hc
          rcases Nat.lt_trichotomy r.1 pre.length with hlt | heq | hgt
          · have hgl : (pre ++ x :: xs)[r.1]? = pre[r.1]? := List.getElem?_append_left hlt
            have hr2 : r.2 ∈ pre := List.getElem?_mem (hgl ▸ hget)
            have := List.all_eq_true.mp hcpre r.2 hr2
            rw [hq] at this
            simp at this
          · exact hj heq
          · have hgx : ((pre ++ x :: xs).take r.1)[pre.length]? = some x := by
              rw [List.getElem?_take_of_lt hgt,
                List.getElem?_append_right (Nat.le_refl _)]
              simp
            have := List.all_eq_true.mp htake x (List.getElem?_mem hgx)
            rw [hcx] at this
            simp at this
        rw [if_neg hcond]
  · rw [if_neg hx, if_neg hx]

/-- The specification transform pass equals the source's indexed map, for any
split of the sequence into a passed prefix and a remainder. -/
theorem specTransformAux_eq (pid s : String) :
    ∀ (pre cur : List CartItem),
      specTransformAux pre pid s (pre ++ cur) cur =
        mapIdxFrom (sizeMapFun pid s (pre ++ cur)) pre.length cur
  | _, [] => rfl
  | pre, x :: xs => by
    rw [specTransformAux, mapIdxFrom, sizeMapFun_eq_specTransformOne]
    congr 1
    have h := specTransformAux_eq pid s (pre ++ [x]) xs
    rw [List.append_assoc, List.length_append] at h
    exact h

/-- The specification dedup equals the source's first-occurrence filter,
relative to a prefix of already-seen line items. -/
theorem specFirstOccurrencesAux_eq :
    ∀ (seen l : List CartItem),
      specFirstOccurrencesAux seen l =
        dedupPairs (l.filter fun y => seen.all fun z => !(identityPair z == identityPair y))
  | _, [] => by
    rw [specFirstOccurrencesAux, List.filter_nil, dedupPairs]
  | seen, x :: xs => by
    rw [specFirstOccurrencesAux, List.filter_cons]
    by_cases hns : (seen.all fun z => !(identityPair z == identityPair x)) = true
    · rw [if_pos hns, if_pos hns, dedupPairs]
      congr 1
      rw [specFirstOccurrencesAux_eq (seen ++ [x]) xs, List.filter_filter]
      congr 1
      refine List.filter_congr ?_
      intro y _
      rw [List.all_append]
      simp [samePair_eq_beq, Bool.beq_comm, Bool.and_comm]
    · rw [if_neg hns, if_neg hns, specFirstOccurrencesAux_eq (seen ++ [x]) xs]
      congr 1
      refine List.filter_congr ?_
      intro y _
      rw [List.all_append]
      by_cases hy : (seen.all fun z => !(identityPair z == identityPair y)) = true
      · have hex : ∃ z ∈ seen, (identityPair z == identityPair x) = true := by
          by_contra hno
          push_neg at hno
          apply hns
          rw [List.all_eq_true]
          intro z hz
          have hzf := hno z hz
          revert hzf
          cases identityPair z == identityPair x <;> simp
        obtain ⟨z, hz, hzx⟩ := hex
        have hzx2 : identityPair z = identityPair x := eq_of_beq hzx
        have hzy := List.all_eq_true.mp hy z hz
        have hxy : (identityPair x == identityPair y) = false := by
          rw [← hzx2]
          revert hzy
          cases identityPair z == identityPair y <;> simp
        simp [hy, hxy]
      · have hyf : (seen.all fun z => !(identityPair z == identityPair y)) = false := by
          revert hy
          cases seen.all fun z => !(identityPair z == identityPair y) <;> simp
        simp [hyf]

/-- C4: general characterization of `updateItemSize` over every pre-update
sequence: it equals the specification-side `updateItemSizeSpec` assembled from
the claim's words — every line item of the targeted product for which a
distinct line item with identity (productId, selectedSize) already exists in
the pre-update sequence is replaced by that existing (first-holder) item's
data with quantity = existing.quantity + current.quantity, the others get
their size overwritten, and the final dedup by (product id, selected size)
keeps only first occurrences, so that when several line items collapse onto
the target size in one call only the first survives with its already-merged
quantity and later duplicates are dropped without further merging. -/
theorem updateItemSize_eq_spec (productId selectedSize : String)
    (prevItems : List CartItem) :
    updateItemSize productId selectedSize prevItems =
      updateItemSizeSpec productId selectedSize prevItems := by
  have hmap : specTransformAux [] productId selectedSize prevItems prevItems =
      mapIdxFrom (sizeMapFun productId selectedSize prevItems) 0 prevItems :=
    specTransformAux_eq productId selectedSize [] prevItems
  rw [updateItemSize, updateItemSizeSpec, specFirstOccurrences,
    specFirstOccurrencesAux_eq, hmap]
  congr 1
  exact (List.filter_eq_self.mpr fun a _ => rfl).symm

/-- Two predicates agreeing on every member give the same `any`. -/
theorem any_congr_of_mem {p q : CartItem → Bool} :
    ∀ {l : List CartItem}, (∀ x ∈ l, p x = q x) → l.any p = l.any q
  | [], _ => rfl
  | x :: xs, h => by
    simp only [List.any_cons, h x (List.mem_cons_self x xs),
      any_congr_of_mem fun y hy => h y (List.mem_cons_of_mem x hy)]

/-- Two predicates agreeing on every member give the same `updateFirst`. -/
theorem updateFirst_congr_of_mem {p q : CartItem → Bool} (f : CartItem → CartItem) :
    ∀ {l : List CartItem}, (∀ x ∈ l, p x = q x) → updateFirst p f l = updateFirst q f l
  | [], _ => rfl
  | x :: xs, h => by
    rw [updateFirst, updateFirst, h x (List.mem_cons_self x xs),
      updateFirst_congr_of_mem f fun y hy => h y (List.mem_cons_of_mem x hy)]

/-- On an item whose sizedness agrees with the argument product's when the ids
match, the `findIndex` predicate of `addItem` is exactly identity-key equality
with the prospective new line item. -/
theorem matchesProduct_eq_keyOf (P : Item) (s : Option String) (q : Int)
    (v : Option Variants) (it : CartItem)
    (hc : it.product.id = P.id → it.product.hasSizes = P.hasSizes) :
    matchesProduct P s it = (keyOf it == keyOf ⟨P, q, v, s⟩) := by
  rw [Bool.eq_iff_iff]
  by_cases hid : it.product.id = P.id
  · have hsz := hc hid
    cases hPs : P.hasSizes <;>
      simp [matchesProduct, keyOf, hid, hPs, hsz ▸ hPs, beq_iff_eq]
  · cases hPs : P.hasSizes <;> cases hits : it.product.hasSizes <;>
      simp [matchesProduct, keyOf, hid, hPs, hits, beq_iff_eq]

/-- C8: when some line item already carries the identity key of the
prospective item, `addItem` increments the first such item's quantity by the
given quantity, leaving its stored variants and size untouched; otherwise it
appends the new line item. In particular, adding the size-less product with
quantity 2 and then 3 leaves exactly one line item of quantity 5 carrying the
first call's variants and size. -/
theorem addItem_merges_by_identity (P : Item) (q : Int) (v v2 : Option Variants)
    (s s2 : Option String) (prev : List CartItem)
    (hc : ∀ it ∈ prev, it.product.id = P.id → it.product.hasSizes = P.hasSizes) :
    (prev.any (fun it => keyOf it == keyOf ⟨P, q, v, s⟩) = true →
      addItem P q v s prev =
        updateFirst (fun it => keyOf it == keyOf ⟨P, q, v, s⟩)
          (fun it => { it with quantity := it.quantity + q }) prev) ∧
    (prev.any (fun it => keyOf it == keyOf ⟨P, q, v, s⟩) = false →
      addItem P q v s prev = prev ++ [⟨P, q, v, s⟩]) ∧
    (P.hasSizes = false → addItem P 3 v2 s2 (addItem P 2 v s []) = [⟨P, 5, v, s⟩]) := by
  have hpred : ∀ it ∈ prev, matchesProduct P s it = (keyOf it == keyOf ⟨P, q, v, s⟩) :=
    fun it hit => matchesProduct_eq_keyOf P s q v it (hc it hit)
  have hany : prev.any (matchesProduct P s) =
      prev.any (fun it => keyOf it == keyOf ⟨P, q, v, s⟩) :=
    any_congr_of_mem hpred
  refine ⟨?_, ?_, ?_⟩
  · intro h
    rw [addItem, hany, h, if_pos rfl]
    exact updateFirst_congr_of_mem _ hpred
  · intro h
    rw [addItem, hany, h]
    simp
  · intro hPf
    simp [addItem, matchesProduct, updateFirst, hPf]

/-- Concrete runs of `addItem_merges_by_identity`: merging into an existing
sized line item of the same size, and the spec's `addItem(P, 2)` then
`addItem(P, 3)` example on a size-less product, which leaves one item of
quantity 5. -/
theorem addItem_merges_by_identity_spot :
    addItem sampleSized 2 none (some "M") [⟨sampleSized, 1, none, some "M"⟩] =
      [⟨sampleSized, 3, none, some "M"⟩] ∧
    addItem sampleNoSize 3 none none (addItem sampleNoSize 2 none none []) =
      [⟨sampleNoSize, 5, none, none⟩] :=
  ⟨((addItem_merges_by_identity sampleSized 2 none none (some "M") none
        [⟨sampleSized, 1, none, some "M"⟩]
        (fun it hit _ => by rcases List.mem_singleton.mp hit with rfl; rfl)).1
      (by decide)).trans (by decide),
   (addItem_merges_by_identity sampleNoSize 2 none none none none []
        (fun it hit => absurd hit (List.not_mem_nil it))).2.2 rfl⟩

/-- C5: when, after dropping the old product's line items, some line item
matches the new product's identity, the replacement is necessarily
same-category (the match witnesses a cart item with the new product's id, which
is clause (a) of the same-category test), so the first matching item's quantity
becomes `max(existing, old quantity)` — the additive branch is unreachable in
this case; its variants and size are overwritten only when the corresponding
argument is provided (`Option.or` / JS `||` fallback to the stored values).
The `quantity ≠ 0` hypothesis keeps the code's `oldItem?.quantity || 1`
falsiness coercion equal to the claim's plain "old item's quantity". -/
theorem replaceItem_existing_target_maxes (oldPid : String) (N : Item) (q : Int)
    (v : Option Variants) (s : Option String) (prev : List CartItem)
    (hq : ∀ it ∈ prev, it.quantity ≠ 0)
    (hfound : (prev.filter fun it => it.product.id != oldPid).any (matchesProduct N s)
      = true) :
    sameCategoryReplacement prev oldPid N = true ∧
    replaceItem oldPid N q v s prev =
      updateFirst (matchesProduct N s)
        (fun it =>
          { it with
            quantity := max it.quantity (oldQuantityPlain prev oldPid),
            selectedVariants := v.or it.selectedVariants,
            selectedSize := jsOrStr s it.selectedSize })
        (prev.filter fun it => it.product.id != oldPid) := by
  obtain ⟨it0, hit0, hm0⟩ := List.any_eq_true.mp hfound
  have hit0p : it0 ∈ prev := (List.mem_filter.mp hit0).1
  have hid0 : (it0.product.id == N.id) = true := by
    simp only [matchesProduct, Bool.and_eq_true_iff] at hm0
    simpa using hm0.1
  have hcat : sameCategoryReplacement prev oldPid N = true := by
    simp only [sameCategoryReplacement]
    exact List.any_eq_true.mpr ⟨it0, hit0p, by simp [hid0]⟩
  have hoq : oldQuantityOf prev oldPid = oldQuantityPlain prev oldPid := by
    unfold oldQuantityOf oldQuantityPlain
    cases hf : List.find? (fun it => it.product.id == oldPid) prev with
    | none => rfl
    | some it1 => simp [jsOrOne, hq it1 (List.mem_of_find?_eq_some hf)]
  refine ⟨hcat, ?_⟩
  simp only [replaceItem, hfound, if_pos rfl, hcat, if_true, hoq]

/-- Concrete run of `replaceItem_existing_target_maxes`: replacing the `"n"`
item (quantity 3) by the sized product `"p"` whose `"M"` line item (quantity 2)
is already in the cart merges to `max(2, 3) = 3` and keeps the stored variants
and size. -/
theorem replaceItem_existing_target_maxes_spot :
    sameCategoryReplacement
        [⟨sampleNoSize, 3, none, none⟩, ⟨sampleSized, 2, none, some "M"⟩] "n" sampleSized
      = true ∧
    replaceItem "n" sampleSized 1 none (some "M")
        [⟨sampleNoSize, 3, none, none⟩, ⟨sampleSized, 2, none, some "M"⟩] =
      [⟨sampleSized, 3, none, some "M"⟩] :=
  ⟨(replaceItem_existing_target_maxes "n" sampleSized 1 none (some "M") _
      (by decide) (by decide)).1,
   ((replaceItem_existing_target_maxes "n" sampleSized 1 none (some "M") _
      (by decide) (by decide)).2).trans (by decide)⟩

/-- C6: when, after dropping the old product's line items, no line item
matches the new product's identity, `replaceItem` appends a new line item
whose quantity is the old item's quantity for a same-category replacement and
the requested quantity otherwise. Hypotheses `q ≠ 0` and non-zero stored
quantities keep the code's JS `|| 1` falsiness coercions equal to the claim's
plain quantities. -/
theorem replaceItem_no_target_appends (oldPid : String) (N : Item) (q : Int)
    (v : Option Variants) (s : Option String) (prev : List CartItem)
    (hq : q ≠ 0) (hold : ∀ it ∈ prev, it.quantity ≠ 0)
    (hnf : (prev.filter fun it => it.product.id != oldPid).any (matchesProduct N s)
      = false) :
    replaceItem oldPid N q v s prev =
      (prev.filter fun it => it.product.id != oldPid) ++
        [⟨N, if sameCategoryReplacement prev oldPid N then oldQuantityPlain prev oldPid
             else q, v, s⟩] := by
  have hoq : oldQuantityOf prev oldPid = oldQuantityPlain prev oldPid := by
    unfold oldQuantityOf oldQuantityPlain
    cases hf : List.find? (fun it => it.product.id == oldPid) prev with
    | none => rfl
    | some it1 => simp [jsOrOne, hold it1 (List.mem_of_find?_eq_some hf)]
  have hjq : jsOrOne q = q := by simp [jsOrOne, hq]
  simp only [replaceItem, hnf, Bool.false_eq_true, if_false, hoq, hjq]

/-- Concrete run of `replaceItem_no_target_appends`, the spec's same-category
preservation scenario: the cart holds item `"n"` (category `c1`, quantity 3);
replacing it by the not-in-cart product `"m"` of the same category yields a
line item for `"m"` with quantity 3, not the requested quantity 1. -/
theorem replaceItem_no_target_appends_spot :
    replaceItem "n" sampleSameCat 1 none none [⟨sampleNoSize, 3, none, none⟩] =
      [⟨sampleSameCat, 3, none, none⟩] :=
  (replaceItem_no_target_appends "n" sampleSameCat 1 none none
      [⟨sampleNoSize, 3, none, none⟩] (by decide) (by decide) (by decide)).trans
    (by decide)

/-- `updateFirst` keeps the identity-key list when the update function
preserves the key of every member it can hit. -/
theorem map_keyOf_updateFirst {p : CartItem → Bool} {f : CartItem → CartItem} :
    ∀ {l : List CartItem}, (∀ x ∈ l, p x = true → keyOf (f x) = keyOf x) →
      (updateFirst p f l).map keyOf = l.map keyOf
  | [], _ => rfl
  | x :: xs, h => by
    rw [updateFirst]
    by_cases hx : p x = true
    · simp [hx, h x (List.mem_cons_self x xs) hx]
    · rw [if_neg hx, List.map_cons, List.map_cons,
        map_keyOf_updateFirst fun y hy => h y (List.mem_cons_of_mem x hy)]

/-- Members of `updateFirst p f l` are members of `l` or images under `f` of
members of `l`. -/
theorem mem_updateFirst {p : CartItem → Bool} {f : CartItem → CartItem} {y : CartItem} :
    ∀ {l : List CartItem}, y ∈ updateFirst p f l → y ∈ l ∨ ∃ x ∈ l, y = f x
  | [], h => absurd h (List.not_mem_nil y)
  | x :: xs, h => by
    rw [updateFirst] at h
    by_cases hx : p x = true
    · rw [if_pos hx] at h
      rcases List.mem_cons.mp h with h | h
      · exact Or.inr ⟨x, List.mem_cons_self x xs, h⟩
      · exact Or.inl (List.mem_cons_of_mem x h)
    · rw [if_neg hx] at h
      rcases List.mem_cons.mp h with h | h
      · exact Or.inl (h ▸ List.mem_cons_self x xs)
      · rcases mem_updateFirst h with h | ⟨z, hz, hy⟩
        · exact Or.inl (List.mem_cons_of_mem x h)
        · exact Or.inr ⟨z, List.mem_cons_of_mem x hz, hy⟩

/-- Members of `mapIdxFrom f n l` are images `f i x` of members `x` of `l`. -/
theorem mem_mapIdxFrom {f : Nat → CartItem → CartItem} {y : CartItem} :
    ∀ {n : Nat} {l : List CartItem}, y ∈ mapIdxFrom f n l → ∃ i, ∃ x ∈ l, y = f i x
  | _, [], h => absurd h (List.not_mem_nil y)
  | n, x :: xs, h => by
    rw [mapIdxFrom] at h
    rcases List.mem_cons.mp h with h | h
    · exact ⟨n, x, List.mem_cons_self x xs, h⟩
    · rcases mem_mapIdxFrom h with ⟨i, z, hz, hy⟩
      exact ⟨i, z, List.mem_cons_of_mem x hz, hy⟩

/-- `mapIdxFrom` commutes with a filter whose satisfied elements the function
fixes and whose unsatisfied elements stay unsatisfied. -/
theorem filter_mapIdxFrom {f : Nat → CartItem → CartItem} {q : CartItem → Bool}
    (h1 : ∀ i x, q x = true → f i x = x) (h2 : ∀ i x, q x = false → q (f i x) = false) :
    ∀ (n : Nat) (l : List CartItem), (mapIdxFrom f n l).filter q = l.filter q
  | _, [] => rfl
  | n, x :: xs => by
    rw [mapIdxFrom, List.filter_cons, List.filter_cons]
    by_cases hx : q x = true
    · rw [h1 n x hx]
      simp only [hx, if_true]
      rw [filter_mapIdxFrom h1 h2 (n + 1) xs]
    · have hxf : q x = false := by revert hx; cases q x <;> simp
      simp only [h2 n x hxf, hxf, Bool.false_eq_true, if_false]
      rw [filter_mapIdxFrom h1 h2 (n + 1) xs]

/-- A successful `findIdxAndElem` returns a member satisfying the predicate. -/
theorem findIdxAndElem_some {p : CartItem → Bool} {r : Nat × CartItem} :
    ∀ {l : List CartItem}, findIdxAndElem p l = some r → r.2 ∈ l ∧ p r.2 = true
  | [], h => by simp [findIdxAndElem] at h
  | x :: xs, h => by
    rw [findIdxAndElem] at h
    by_cases hx : p x = true
    · rw [if_pos hx] at h
      cases h
      exact ⟨List.mem_cons_self x xs, hx⟩
    · rw [if_neg hx] at h
      rcases Option.map_eq_some'.mp h with ⟨r0, hr0, hr⟩
      obtain ⟨hmem, hp⟩ := findIdxAndElem_some hr0
      exact ⟨List.mem_cons_of_mem x (hr ▸ hmem), hr ▸ hp⟩

/-- The dedup pass returns a sublist of its input. -/
theorem dedupPairs_sublist : ∀ l : List CartItem, List.Sublist (dedupPairs l) l
  | [] => by
    rw [dedupPairs]
  | x :: xs => by
    rw [dedupPairs]
    exact ((dedupPairs_sublist _).trans (List.filter_sublist xs)).cons₂ x
  termination_by l => l.length
  decreasing_by
    simp only [List.length_cons]
    exact Nat.lt_succ_of_le (List.length_filter_le _ _)

/-- After the dedup pass, no later element shares its (product id, size) pair
with an earlier one. -/
theorem dedupPairs_pairwise : ∀ l : List CartItem,
    (dedupPairs l).Pairwise fun a b => samePair b a = false
  | [] => by
    rw [dedupPairs]
    exact List.Pairwise.nil
  | x :: xs => by
    rw [dedupPairs]
    refine List.Pairwise.cons ?_ (dedupPairs_pairwise _)
    intro y hy
    have hy2 : y ∈ xs.filter fun z => !samePair z x :=
      (dedupPairs_sublist _).subset hy
    have := (List.mem_filter.mp hy2).2
    revert this
    cases samePair y x <;> simp
  termination_by l => l.length
  decreasing_by
    simp only [List.length_cons]
    exact Nat.lt_succ_of_le (List.length_filter_le _ _)

/-- A cart with no item matching `addItem`'s predicate holds no item with the
identity key of the prospective new line item. -/
theorem keyOf_notMem_of_not_any {P : Item} {s : Option String} {l : List CartItem}
    (h : l.any (matchesProduct P s) = false) (q : Int) (v : Option Variants) :
    keyOf ⟨P, q, v, s⟩ ∉ l.map keyOf := by
  intro hmem
  obtain ⟨x, hx, hkey⟩ := List.mem_map.mp hmem
  have hno := List.any_eq_false.mp h x hx
  cases hPs : P.hasSizes <;> cases hxs : x.product.hasSizes <;>
      simp [keyOf, hPs, hxs] at hkey <;>
    exact hno (by simp [matchesProduct, hPs, hkey])

/-- Keys-uniqueness survives any filter. -/
theorem uniqueKeys_filter {l : List CartItem} (q : CartItem → Bool)
    (h : UniqueKeys l) : UniqueKeys (l.filter q) :=
  List.Nodup.sublist (List.Sublist.map keyOf (List.filter_sublist l)) h

/-- Sizedness-consistency survives any filter. -/
theorem sizedConsistent_filter {sz : String → Bool} {l : List CartItem}
    (q : CartItem → Bool) (h : SizedConsistent sz l) : SizedConsistent sz (l.filter q) :=
  fun it hit => h it (List.mem_of_mem_filter hit)

/-- `addItem` preserves the invariant when its product argument agrees with
the catalog's sizedness. -/
theorem cartInv_addItem {sz : String → Bool} {l : List CartItem} (P : Item) (q : Int)
    (v : Option Variants) (s : Option String) (hinv : CartInv sz l)
    (hp : P.hasSizes = sz P.id) : CartInv sz (addItem P q v s l) := by
  obtain ⟨hu, hs⟩ := hinv
  rw [addItem]
  by_cases hany : l.any (matchesProduct P s) = true
  · rw [if_pos hany]
    constructor
    · rw [UniqueKeys, @map_keyOf_updateFirst (matchesProduct P s)
        (fun it => { it with quantity := it.quantity + q }) l (fun x _ _ => rfl)]
      exact hu
    · intro it hit
      rcases mem_updateFirst hit with h | ⟨x, hx, hy⟩
      · exact hs it h
      · rw [hy]
        exact hs x hx
  · have hany2 : l.any (matchesProduct P s) = false := by
      revert hany; cases l.any (matchesProduct P s) <;> simp
    rw [if_neg hany]
    constructor
    · rw [UniqueKeys, List.map_append]
      refine List.Nodup.append hu (List.nodup_singleton _) ?_
      intro k hk hk2
      rw [List.map_singleton, List.mem_singleton] at hk2
      exact keyOf_notMem_of_not_any hany2 q v (hk2 ▸ hk)
    · intro it hit
      rcases List.mem_append.mp hit with h | h
      · exact hs it h
      · rw [List.mem_singleton.mp h]
        exact hp

/-- `removeItem` preserves the invariant. -/
theorem cartInv_removeItem {sz : String → Bool} {l : List CartItem} (pid : String)
    (hinv : CartInv sz l) : CartInv sz (removeItem pid l) :=
  ⟨uniqueKeys_filter _ hinv.1, sizedConsistent_filter _ hinv.2⟩

/-- `updateQuantity` preserves the invariant. -/
theorem cartInv_updateQuantity {sz : String → Bool} {l : List CartItem} (pid : String)
    (q : Int) (hinv : CartInv sz l) : CartInv sz (updateQuantity pid q l) := by
  rw [updateQuantity]
  by_cases hq : q ≤ 0
  · rw [if_pos hq]
    exact cartInv_removeItem pid hinv
  · rw [if_neg hq]
    obtain ⟨hu, hs⟩ := hinv
    constructor
    · rw [UniqueKeys, List.map_map]
      have : (keyOf ∘ fun it =>
          if it.product.id == pid then { it with quantity := q } else it) = keyOf := by
        funext it
        by_cases hit : it.product.id == pid <;> simp [Function.comp, hit, keyOf]
      rw [this]
      exact hu
    · intro it hit
      obtain ⟨x, hx, hy⟩ := List.mem_map.mp hit
      by_cases hxp : x.product.id == pid <;> simp [hxp] at hy <;> rw [← hy] <;>
        exact hs x hx

/-- `replaceItem` preserves the invariant when its new-product argument agrees
with the catalog's sizedness. -/
theorem cartInv_replaceItem {sz : String → Bool} {l : List CartItem} (oldPid : String)
    (N : Item) (q : Int) (v : Option Variants) (s : Option String)
    (hinv : CartInv sz l) (hp : N.hasSizes = sz N.id) :
    CartInv sz (replaceItem oldPid N q v s l) := by
  obtain ⟨hu, hs⟩ := hinv
  have hfu : UniqueKeys (l.filter fun it => it.product.id != oldPid) :=
    uniqueKeys_filter _ hu
  have hfs : SizedConsistent sz (l.filter fun it => it.product.id != oldPid) :=
    sizedConsistent_filter _ hs
  rw [replaceItem]
  by_cases hany :
      (l.filter fun it => it.product.id != oldPid).any (matchesProduct N s) = true
  · rw [if_pos hany]
    constructor
    · rw [UniqueKeys, map_keyOf_updateFirst]
      · exact hfu
      · intro x hx hm
        have hm2 := hm
        simp only [matchesProduct, Bool.and_eq_true_iff] at hm2
        have hxid : x.product.id = N.id := by simpa using hm2.1
        cases hxs : x.product.hasSizes
        · simp [keyOf, hxs]
        · have hNs : N.hasSizes = true := by
            rw [hp, ← hxid, ← hfs x hx, hxs]
          have hsz2 : x.selectedSize = s := by
            have h2 := hm2.2
            rw [hNs] at h2
            simpa using h2
          have hkey : jsOrStr s x.selectedSize = x.selectedSize := by
            rw [hsz2]
            cases s with
            | none => rfl
            | some t => by_cases ht : t == "" <;> simp [jsOrStr, ht]
          simp [keyOf, hxs, hkey]
    · intro it hit
      rcases mem_updateFirst hit with h | ⟨x, hx, hy⟩
      · exact hfs it h
      · rw [hy]
        exact hfs x hx
  · rw [if_neg hany]
    have hany2 :
        (l.filter fun it => it.product.id != oldPid).any (matchesProduct N s) = false := by
      revert hany
      cases (l.filter fun it => it.product.id != oldPid).any (matchesProduct N s) <;> simp
    constructor
    · rw [UniqueKeys, List.map_append]
      refine List.Nodup.append hfu (List.nodup_singleton _) ?_
      intro k hk hk2
      rw [List.map_singleton, List.mem_singleton] at hk2
      exact keyOf_notMem_of_not_any hany2 _ v (hk2 ▸ hk)
    · intro it hit
      rcases List.mem_append.mp hit with h | h
      · exact hfs it h
      · rw [List.mem_singleton.mp h]
        exact hp

/-- The transform of `updateItemSize` fixes items of other products. -/
theorem sizeMapFun_id_of_ne {pid s : String} {l : List CartItem} {i : Nat} {x : CartItem}
    (h : (x.product.id == pid) = false) : sizeMapFun pid s l i x = x := by
  rw [sizeMapFun, if_neg (by simp [h])]

/-- The transform of `updateItemSize` preserves whether an item belongs to the
targeted product. -/
theorem sizeMapFun_pid {pid s : String} {l : List CartItem} {i : Nat} {x : CartItem} :
    ((sizeMapFun pid s l i x).product.id == pid) = (x.product.id == pid) := by
  rw [sizeMapFun]
  by_cases hxp : (x.product.id == pid) = true
  · rw [if_pos hxp]
    cases hf : findIdxAndElem
        (fun it => it.product.id == pid && it.selectedSize == some s) l with
    | none => rfl
    | some r =>
      dsimp only
      by_cases hr : r.1 ≠ i
      · rw [if_pos hr, hxp]
        exact (Bool.and_eq_true_iff.mp (findIdxAndElem_some hf).2).1
      · rw [if_neg hr]
  · rw [if_neg hxp]

/-- Every transformed item of the targeted product carries the target size. -/
theorem sizeMapFun_size {pid s : String} {l : List CartItem} {i : Nat} {x : CartItem}
    (h : ((sizeMapFun pid s l i x).product.id == pid) = true) :
    (sizeMapFun pid s l i x).selectedSize = some s := by
  have hxp : (x.product.id == pid) = true := sizeMapFun_pid ▸ h
  rw [sizeMapFun, if_pos hxp]
  cases hf : findIdxAndElem
      (fun it => it.product.id == pid && it.selectedSize == some s) l with
  | none => rfl
  | some r =>
    dsimp only
    by_cases hr : r.1 ≠ i
    · rw [if_pos hr]
      have h2 := (Bool.and_eq_true_iff.mp (findIdxAndElem_some hf).2).2
      simpa using h2
    · rw [if_neg hr]

/-- The transform of `updateItemSize` only produces products already stored in
the scanned list. -/
theorem sizeMapFun_product {pid s : String} {l : List CartItem} (i : Nat) {x : CartItem}
    (hx : x ∈ l) : ∃ z ∈ l, (sizeMapFun pid s l i x).product = z.product := by
  rw [sizeMapFun]
  by_cases hxp : (x.product.id == pid) = true
  · rw [if_pos hxp]
    cases hf : findIdxAndElem
        (fun it => it.product.id == pid && it.selectedSize == some s) l with
    | none => exact ⟨x, hx, rfl⟩
    | some r =>
      dsimp only
      by_cases hr : r.1 ≠ i
      · rw [if_pos hr]
        exact ⟨r.2, (findIdxAndElem_some hf).1, rfl⟩
      · rw [if_neg hr]
        exact ⟨x, hx, rfl⟩
  · rw [if_neg hxp]
    exact ⟨x, hx, rfl⟩

/-- `updateItemSize` preserves the invariant: the final first-occurrence dedup
by (product id, size) restores key uniqueness even though the per-item merge
can transiently duplicate pairs. -/
theorem cartInv_updateItemSize {sz : String → Bool} {l : List CartItem} (pid : String)
    (s : String) (hinv : CartInv sz l) : CartInv sz (updateItemSize pid s l) := by
  obtain ⟨hu, hs⟩ := hinv
  rw [updateItemSize]
  have hpair := dedupPairs_pairwise (mapIdxFrom (sizeMapFun pid s l) 0 l)
  have hfilter_eq : (mapIdxFrom (sizeMapFun pid s l) 0 l).filter
        (fun y => y.product.id != pid)
      = l.filter (fun y => y.product.id != pid) := by
    refine filter_mapIdxFrom ?_ ?_ 0 l
    · intro i x hx
      refine sizeMapFun_id_of_ne ?_
      revert hx
      show ((!(x.product.id == pid)) = true) → _
      cases x.product.id == pid <;> simp
    · intro i x hx
      show (!((sizeMapFun pid s l i x).product.id == pid)) = false
      rw [sizeMapFun_pid]
      revert hx
      show ((!(x.product.id == pid)) = false) → _
      exact fun h => h
  have target_size : ∀ y ∈ mapIdxFrom (sizeMapFun pid s l) 0 l,
      (y.product.id == pid) = true → y.selectedSize = some s := by
    intro y hy hyp
    obtain ⟨i, x, _, rfl⟩ := mem_mapIdxFrom hy
    exact sizeMapFun_size hyp
  constructor
  · have key : ∀ a b, List.Sublist [a, b] (dedupPairs (mapIdxFrom (sizeMapFun pid s l) 0 l)) →
        keyOf a ≠ keyOf b := by
      intro a b hab hk
      have hnopair : samePair b a = false := List.pairwise_iff_forall_sublist.mp hpair hab
      have habm : List.Sublist [a, b] (mapIdxFrom (sizeMapFun pid s l) 0 l) :=
        hab.trans (dedupPairs_sublist _)
      have ham : a ∈ mapIdxFrom (sizeMapFun pid s l) 0 l :=
        habm.subset (List.mem_cons_self _ _)
      have hbm : b ∈ mapIdxFrom (sizeMapFun pid s l) 0 l := habm.subset (by simp)
      cases haP : a.product.hasSizes <;> cases hbP : b.product.hasSizes <;>
        simp [keyOf, haP, hbP] at hk
      · -- both size-less: hk : ids equal
        by_cases hta : (a.product.id == pid) = true
        · have htb : (b.product.id == pid) = true := by rw [← hk]; exact hta
          have ha2 := target_size a ham hta
          have hb2 := target_size b hbm htb
          simp [samePair, hk, ha2, hb2] at hnopair
        · have hta2 : (a.product.id == pid) = false := by
            revert hta; cases a.product.id == pid <;> simp
          have htb2 : (b.product.id == pid) = false := by rw [← hk]; exact hta2
          have hba : (a.product.id != pid) = true := by simp [bne, hta2]
          have hbb : (b.product.id != pid) = true := by simp [bne, htb2]
          have hfq : List.filter (fun y => y.product.id != pid) [a, b] = [a, b] := by
            simp [List.filter_cons, hba, hbb]
          have hsubf : List.Sublist [a, b]
              ((mapIdxFrom (sizeMapFun pid s l) 0 l).filter
                (fun y => y.product.id != pid)) :=
            hfq ▸ habm.filter _
          have hsubl : List.Sublist [a, b] l :=
            (hfilter_eq ▸ hsubf).trans (List.filter_sublist l)
          have hne : keyOf a ≠ keyOf b :=
            List.pairwise_iff_forall_sublist.mp (List.pairwise_map.mp hu) hsubl
          exact hne (by simp [keyOf, haP, hbP, hk])
      · -- both sized: hk gives equal ids and sizes, contradicting the dedup
        simp [samePair, hk.1, hk.2] at hnopair
    exact List.pairwise_map.mpr
      (List.pairwise_iff_forall_sublist.mpr fun hab => key _ _ hab)
  · intro it hit
    have hitm : it ∈ mapIdxFrom (sizeMapFun pid s l) 0 l :=
      (dedupPairs_sublist _).subset hit
    obtain ⟨i, x, hx, rfl⟩ := mem_mapIdxFrom hitm
    obtain ⟨z, hz, hpz⟩ := sizeMapFun_product i hx
    rw [hpz]
    exact hs z hz

/-- One exposed operation preserves the cart-sequence invariant. -/
theorem cartInv_applyOp {sz : String → Bool} {st : CartState} (op : CartOp)
    (h : CartInv sz st.items) (hop : OpConsistent sz op) :
    CartInv sz (applyOp st op).items := by
  cases op with
  | add p q v s =>
    cases hd : st.direct with
    | some d => simpa [applyOp, cartAddItem, hd] using h
    | none =>
      simpa [applyOp, cartAddItem, hd, persistItems] using cartInv_addItem p q v s h hop
  | remove pid =>
    cases hd : st.direct with
    | some d => simpa [applyOp, cartRemoveItem, hd] using h
    | none =>
      simpa [applyOp, cartRemoveItem, hd, persistItems] using cartInv_removeItem pid h
  | setQty pid q =>
    cases hd : st.direct with
    | some d => simpa [applyOp, cartUpdateQuantity, hd] using h
    | none =>
      simpa [applyOp, cartUpdateQuantity, hd, persistItems] using
        cartInv_updateQuantity pid q h
  | setSize pid s =>
    cases hd : st.direct with
    | some d => simpa [applyOp, cartUpdateItemSize, hd] using h
    | none =>
      simpa [applyOp, cartUpdateItemSize, hd, persistItems] using
        cartInv_updateItemSize pid s h
  | replace pid p q v s =>
    cases hd : st.direct with
    | some d => simpa [applyOp, cartReplaceItem, hd] using h
    | none =>
      simpa [applyOp, cartReplaceItem, hd, persistItems] using
        cartInv_replaceItem pid p q v s h hop
  | clear =>
    exact ⟨List.nodup_nil, fun it hit => absurd hit (List.not_mem_nil it)⟩

/-- Folding any catalog-consistent operation list preserves the invariant. -/
theorem cartInv_foldl {sz : String → Bool} :
    ∀ (ops : List CartOp) (st : CartState), (∀ op ∈ ops, OpConsistent sz op) →
      CartInv sz st.items → CartInv sz (ops.foldl applyOp st).items
  | [], _, _, h => h
  | op :: ops, st, hops, h => by
    rw [List.foldl_cons]
    exact cartInv_foldl ops (applyOp st op)
      (fun o ho => hops o (List.mem_cons_of_mem op ho))
      (cartInv_applyOp op h (hops op (List.mem_cons_self op ops)))

/-- C2: after any sequence of exposed operations (`addItem`, `removeItem`,
`updateQuantity`, `updateItemSize`, `replaceItem`, `clearCart`) from the empty
initial state, no two line items of the resulting cart sequence share an
identity key — (product id, selected size) for a size-bearing product, product
id alone otherwise. The operations draw their product arguments from a stable
external catalog, expressed by the hypothesis that whether a product is
size-bearing is a function `sz` of its id. -/
theorem ops_preserve_unique_keys (sz : String → Bool) (ops : List CartOp)
    (hops : ∀ op ∈ ops, OpConsistent sz op) :
    UniqueKeys (runOps ops).items :=
  (cartInv_foldl ops initialState hops
    ⟨List.nodup_nil, fun it hit => absurd hit (List.not_mem_nil it)⟩).1

/-- Concrete run of `ops_preserve_unique_keys`: five operations, including a
size collapse and a replacement, leave pairwise-distinct identity keys. -/
theorem ops_preserve_unique_keys_spot :
    UniqueKeys (runOps
      [.add sampleSized 1 none (some "M"), .add sampleSized 1 none (some "L"),
       .add sampleNoSize 2 none none, .setSize "p" "L",
       .replace "n" sampleSameCat 1 none none]).items :=
  ops_preserve_unique_keys (fun pid => pid == "p") _ (by
    intro op hop
    simp only [List.mem_cons, List.not_mem_nil, or_false] at hop
    rcases hop with rfl | rfl | rfl | rfl | rfl <;> first | decide | trivial)

end Medfit
